import Mathlib

/-!
Verification of the per-row screen-buffer primitive (`ROW`) from
`src/buffer/out/Row.{hpp,cpp}`.

Modelling conventions:

* `wchar_t` is 16 bits (MSVC).  Because the C++ `memcpy`/`memmove` calls in
  `ROW::Replace` pass *element* counts where *byte* counts are expected, the
  character buffer is modelled at byte granularity: `chars` is a list of
  bytes of length `2 * charsCapacity`, a `wchar_t` at wchar offset `i` is the
  little-endian pair at bytes `2*i, 2*i+1`.
* `size_t` arithmetic is modelled modulo `2^64` (`mod64`), `uint16_t`
  arithmetic modulo `2^16` (`mod16`).
* Reads or writes outside the allocation are undefined behaviour in C++; the
  model returns `.error .oob` for them.  A zero-length copy never accesses
  memory and always succeeds.
* Freshly allocated heap memory is indeterminate in C++; the model fills it
  with the sentinel byte `205` (`0xCD`).
* `THROW_HR_IF(E_INVALIDARG, ...)` is modelled as `.error .invalidArg`.
* Text attributes (`TextAttribute`) are opaque equality-comparable values,
  modelled as `Nat`.
-/

namespace TermRow

/-- Value of an `Int` reduced into `size_t` range (arithmetic modulo 2^64). -/
def mod64 (z : Int) : Nat := (z % (18446744073709551616 : Int)).toNat

/-- Value of an `Int` reduced into `uint16_t` range (arithmetic modulo 2^16). -/
def mod16 (z : Int) : Nat := (z % (65536 : Int)).toNat

/-- Read `n` bytes starting at byte offset `off`; `none` when the range is not
inside the allocation.  A zero-length read accesses nothing and succeeds. -/
def readBytes (l : List Nat) (off n : Nat) : Option (List Nat) :=
  if n = 0 then some []
  else if off + n ≤ l.length then some ((l.drop off).take n)
  else none

/-- Overwrite the bytes starting at byte offset `off` with `data`; `none` when
the range is not inside the allocation. -/
def writeBytes (l : List Nat) (off : Nat) (data : List Nat) : Option (List Nat) :=
  if data.length = 0 then some l
  else if off + data.length ≤ l.length then
    some (l.take off ++ data ++ l.drop (off + data.length))
  else none

/-- Byte-counted `memcpy`/`memmove` (the source range is read in full before
the destination is written, which also gives `memmove` semantics). -/
def memcpyB (dst : List Nat) (dstOff : Nat) (src : List Nat) (srcOff n : Nat) :
    Option (List Nat) :=
  (readBytes src srcOff n).bind (writeBytes dst dstOff)

/-- Low byte of a 16-bit unit. -/
def loByte (u : Nat) : Nat := u % 256

/-- High byte of a 16-bit unit. -/
def hiByte (u : Nat) : Nat := u / 256 % 256

/-- Little-endian byte serialization of a `wchar_t` string. -/
def strBytes (s : List Nat) : List Nat :=
  (s.map (fun u => [loByte u, hiByte u])).flatten

/-- Decode a byte list into 16-bit units (little endian); a trailing odd byte
is dropped. -/
def decodeW : List Nat → List Nat
  | [] => []
  | [_] => []
  | lo :: hi :: rest => (lo + 256 * hi) :: decodeW rest

/-- Model of `wmemset(l + off, w, n)`: writes `n` *wchars* at wchar offset
`off`. -/
def wmemsetB (l : List Nat) (off n w : Nat) : Option (List Nat) :=
  writeBytes l (2 * off) (strBytes (List.replicate n w))

/-- Model of `wmemchr(l, w, n) != nullptr`: scans the first `n` wchars starting
at wchar position `i` for the value `w`, stopping at the first hit. -/
def wmemchrB (l : List Nat) (w : Nat) : Nat → Nat → Option Bool
  | _, 0 => some false
  | i, Nat.succ n =>
    match readBytes l (2 * i) 2 with
    | some (lo :: hi :: _) =>
      if lo + 256 * hi = w then some true else wmemchrB l w (i + 1) n
    | _ => none

/-- Map `f i v` over a list whose first element carries index `i0`. -/
def mapIdxFrom (f : Nat → Nat → Nat) : Nat → List Nat → List Nat
  | _, [] => []
  | i, v :: vs => f i v :: mapIdxFrom f (i + 1) vs

/-- Apply `f` to the entries with positions in `[a, b)`. -/
def mapRange (l : List Nat) (a b : Nat) (f : Nat → Nat) : List Nat :=
  mapIdxFrom (fun i v => if a ≤ i ∧ i < b then f v else v) 0 l

/-- Set the entries with positions in `[a, b)` to `v`. -/
def setRange (l : List Nat) (a b v : Nat) : List Nat :=
  mapRange l a b (fun _ => v)

/-- Scan of the `for (;; x2++) { rhs = _indices[x2]; if (rhs != lhs) break; }`
loop in `ROW::Replace`: starting at position `i`, find the first entry whose
value differs from `lhs` and return its position and value; `none` models the
out-of-bounds read that happens when the scan runs past the end of the array.
The fuel argument of `findNeAux` is chosen so that the out-of-bounds case is
always detected first. -/
def findNeAux (inds : List Nat) (lhs : Nat) : Nat → Nat → Option (Nat × Nat)
  | _, 0 => none
  | i, Nat.succ fuel =>
    match inds.get? i with
    | none => none
    | some v => if v = lhs then findNeAux inds lhs (i + 1) fuel else some (i, v)

/-- Entry point for the index scan of `ROW::Replace` and `ROW::GlyphAt`. -/
def findNe (inds : List Nat) (lhs i : Nat) : Option (Nat × Nat) :=
  findNeAux inds lhs i (inds.length + 1 - i)

/-! ### Style run list

Modelled from the spec: the style run list type `til::small_rle` is used by
`Row.hpp` but its implementation (`til/rle.h`) is not part of the analysed
sources.  Section 4.2 of the spec describes it as an ordered list of
`(value, runLength)` pairs partitioning `[0, width)` into maximal runs, with
`replace(beginColumn, endColumn, value)` overwriting the half-open column
range and re-merging adjacent equal runs, `replace_values` substituting values
globally, and `at` returning the value of the run covering a column.  The model
realises this by decoding to one value per column, mutating, and re-encoding
into maximal runs. -/

/-- Expand a run-length list into one value per column. -/
def rleDecode (runs : List (Nat × Nat)) : List Nat :=
  (runs.map (fun r => List.replicate r.2 r.1)).flatten

/-- Group a per-column value list into maximal `(value, length)` runs. -/
def rleEncode : List Nat → List (Nat × Nat)
  | [] => []
  | v :: rest =>
    match rleEncode rest with
    | [] => [(v, 1)]
    | (w, n) :: tail => if v = w then (w, n + 1) :: tail else (v, 1) :: (w, n) :: tail

/-- Total number of columns covered by a run-length list (`small_rle::size`). -/
def rleSize (runs : List (Nat × Nat)) : Nat := (runs.map (fun r => r.2)).sum

/-- Modelled from the spec: `small_rle::replace(begin, end, value)` overwrites
the half-open column range `[b, e)` with `v` and keeps runs maximal. -/
def rleReplace (runs : List (Nat × Nat)) (b e v : Nat) : List (Nat × Nat) :=
  rleEncode (setRange (rleDecode runs) b e v)

/-- Modelled from the spec: `small_rle::replace_values(old, new)` substitutes
values globally without changing column boundaries. -/
def rleReplaceValues (runs : List (Nat × Nat)) (old new : Nat) : List (Nat × Nat) :=
  rleEncode ((rleDecode runs).map (fun v => if v = old then new else v))

/-- Modelled from the spec: `small_rle::at(column)` returns the value of the
run covering `column`. -/
def rleAt (runs : List (Nat × Nat)) (column : Nat) : Option Nat :=
  (rleDecode runs).get? column

/-! ### The ROW data structure -/

/-- Error taxonomy: `invalidArg` models `THROW_HR_IF(E_INVALIDARG, ...)`;
`oob` models an out-of-bounds memory access (undefined behaviour in C++). -/
inductive RowErr where
  | invalidArg
  | oob
deriving DecidableEq, Repr

/-- Enum `DbcsAttribute`: width classification of a cell. -/
inductive DbcsAttr where
  | single
  | leading
  | trailing
deriving DecidableEq, Repr

/-- Enum `TextAttributeBehavior` of an output cell. -/
inductive TABehavior where
  | stored
  | current
  | storedOnly
deriving DecidableEq, Repr

/-- State of a `ROW`: byte buffer `chars` (length `2 * charsCapacity`),
column-to-offset array `indices` (`indicesCount + 1` entries of `uint16_t`),
the style run list `attr`, and the per-row flags. -/
structure ROW where
  chars : List Nat
  charsCapacity : Nat
  indices : List Nat
  indicesCount : Nat
  attr : List (Nat × Nat)
  lineRendition : Nat
  wrapForced : Bool
  doubleBytePadded : Bool
deriving DecidableEq, Repr

/-- Modelled from the spec: the `ROW` constructor takes caller-allocated
`chars`/`indices` buffers (the owning text buffer is not part of the analysed
sources) and calls `Reset`, which reads `_indices[_indicesCount]` from the
caller's buffer.  Section 3 ("Lifecycles") specifies the constructed state:
width-many blank glyphs, the identity index mapping, and a single style run of
the fill style covering the whole width. -/
def rowInit (w a : Nat) : ROW where
  chars := strBytes (List.replicate w 32)
  charsCapacity := w
  indices := List.range (w + 1)
  indicesCount := w
  attr := if w = 0 then [] else [(a, w)]
  lineRendition := 0
  wrapForced := false
  doubleBytePadded := false

/-- Model of `ROW::Replace(size_t x, size_t width, const std::wstring_view& chars)`,
the raw text-replace operation (Row.hpp:200-263), translated line by line
including its `size_t`/`uint16_t` wrap-around arithmetic and the byte counts
it passes to `memmove`/`memcpy`. -/
def replaceTextRaw (r : ROW) (x width' : Nat) (cs : List Nat) : Except RowErr ROW :=
  if cs.length = 0 then .ok r
  else
    let x1 := min x r.indicesCount
    let x2i := min (x1 + width') r.indicesCount
    match r.indices.get? x1 with
    | none => .error .oob
    | some lhs =>
      match findNe r.indices lhs x2i with
      | none => .error .oob
      | some (x2, rhs) =>
        let diff : Int := (rhs : Int) - (lhs : Int) - (cs.length : Int)
        let sized : Except RowErr (List Nat × Nat × List Nat) :=
          if diff = 0 then .ok (r.chars, r.charsCapacity, r.indices)
          else
            match r.indices.get? r.indicesCount with
            | none => .error .oob
            | some currentLength =>
              let newLength := mod64 ((currentLength : Int) + diff)
              let newRhs := lhs + cs.length
              let moveCount := mod64 ((currentLength : Int) - (rhs : Int))
              let moved : Except RowErr (List Nat × Nat) :=
                if newLength ≤ r.charsCapacity then
                  match memcpyB r.chars (2 * newRhs) r.chars (2 * rhs) moveCount with
                  | none => .error .oob
                  | some chars1 => .ok (chars1, r.charsCapacity)
                else
                  let newCapacity := max newLength (r.charsCapacity + r.charsCapacity / 2)
                  let fresh := List.replicate (2 * newCapacity) 205
                  match memcpyB fresh 0 r.chars 0 lhs with
                  | none => .error .oob
                  | some c1 =>
                    match memcpyB c1 (2 * newRhs) r.chars (2 * rhs) moveCount with
                    | none => .error .oob
                    | some c2 => .ok (c2, newCapacity)
              moved.map (fun p =>
                (p.1, p.2,
                  mapRange r.indices x2 (r.indicesCount + 1)
                    (fun v => mod16 ((v : Int) + diff))))
        sized.bind (fun t =>
          match memcpyB t.1 (2 * lhs) (strBytes cs) 0 cs.length with
          | none => .error .oob
          | some chars2 =>
            .ok { r with
                  chars := chars2
                  charsCapacity := t.2.1
                  indices := setRange t.2.2 x1 x2 lhs })

/-- Model of `ROW::ClearCell(column)`: `Replace(column, 1, L" ")`. -/
def clearCell (r : ROW) (column : Nat) : Except RowErr ROW :=
  replaceTextRaw r column 1 [32]

/-- Model of `ROW::ClearColumn(column)`: bounds check, then `ClearCell`. -/
def clearColumn (r : ROW) (column : Nat) : Except RowErr ROW :=
  if r.indicesCount ≤ column then .error .invalidArg
  else clearCell r column

/-- Model of `ROW::Replace(size_t x, DbcsAttribute attr, const std::wstring_view&)`:
a trailing cell with `x > 0` is redirected to the leading column; single
cells span 1 column, others 2. -/
def replaceChar (r : ROW) (x : Nat) (d : DbcsAttr) (cs : List Nat) : Except RowErr ROW :=
  let x' := if d = .trailing ∧ 0 < x then x - 1 else x
  replaceTextRaw r x' (if d = .single then 1 else 2) cs

/-- Model of `ROW::Replace(uint16_t, uint16_t, const TextAttribute&)`: style replace on
the run list. -/
def replaceAttrRange (r : ROW) (b e v : Nat) : ROW :=
  { r with attr := rleReplace r.attr b e v }

/-- Model of `ROW::SetAttrToEnd(beginIndex, attr)`. -/
def setAttrToEnd (r : ROW) (b v : Nat) : ROW :=
  { r with attr := rleReplace r.attr b (rleSize r.attr) v }

/-- Model of `ROW::ReplaceAttrs(toBeReplacedAttr, replaceWith)`. -/
def replaceAttrs (r : ROW) (old new : Nat) : ROW :=
  { r with attr := rleReplaceValues r.attr old new }

/-- Model of `ROW::Reset(Attr)` (Row.cpp:34-46): blank the used wchar range, reset the
indices to the identity mapping, overwrite the whole style list, clear flags. -/
def reset (r : ROW) (a : Nat) : Except RowErr ROW :=
  match r.indices.get? r.indicesCount with
  | none => .error .oob
  | some used =>
    match wmemsetB r.chars 0 used 32 with
    | none => .error .oob
    | some chars1 =>
      .ok { r with
            chars := chars1
            indices := List.range (r.indicesCount + 1)
            attr := rleReplace r.attr 0 (rleSize r.attr) a
            lineRendition := 0
            wrapForced := false
            doubleBytePadded := false }

/-- Model of `ROW::GlyphAt(column)` (Row.hpp:315-333): clamp the column, scan for the
next distinct offset, return the wchar slice `[lhs, rhs)`. -/
def glyphAt (r : ROW) (column : Nat) : Except RowErr (List Nat) :=
  let column' := min column (r.indicesCount - 1)
  match r.indices.get? column' with
  | none => .error .oob
  | some lhs =>
    match findNe r.indices lhs (column' + 1) with
    | none => .error .oob
    | some p =>
      match readBytes r.chars (2 * lhs) (2 * mod64 ((p.2 : Int) - (lhs : Int))) with
      | none => .error .oob
      | some bs => .ok (decodeW bs)

/-- Model of `ROW::DbcsAttrAt(column)` (Row.hpp:335-352): trailing iff the previous
index equals this column's, else leading iff the next index equals it. -/
def dbcsAttrAt (r : ROW) (column : Nat) : Except RowErr DbcsAttr :=
  let column' := min column (r.indicesCount - 1)
  match r.indices.get? column' with
  | none => .error .oob
  | some idx =>
    if 0 < column' then
      match r.indices.get? (column' - 1) with
      | none => .error .oob
      | some p =>
        if p = idx then .ok .trailing
        else if column' < r.indicesCount then
          match r.indices.get? (column' + 1) with
          | none => .error .oob
          | some q => if q = idx then .ok .leading else .ok .single
        else .ok .single
    else if column' < r.indicesCount then
      match r.indices.get? (column' + 1) with
      | none => .error .oob
      | some q => if q = idx then .ok .leading else .ok .single
    else .ok .single

/-- Model of `ROW::GetText()` (Row.hpp:354-357): the wchar slice
`{ _chars, _indicesCount }` — the first `width` wchars of the buffer,
independent of the indices. -/
def getText (r : ROW) : Except RowErr (List Nat) :=
  match readBytes r.chars 0 (2 * r.indicesCount) with
  | none => .error .oob
  | some bs => .ok (decodeW bs)

/-- Model of `ROW::ContainsText()` (Row.hpp:310-313): literally
`wmemchr(_chars, L' ', _indices[_indicesCount]) != nullptr` — reports whether
a *blank* occurs in the used range. -/
def containsText (r : ROW) : Except RowErr Bool :=
  match r.indices.get? r.indicesCount with
  | none => .error .oob
  | some used =>
    match wmemchrB r.chars 32 0 used with
    | none => .error .oob
    | some b => .ok b

/-! ### Cell writer (`ROW::WriteCells`, Row.cpp:69-160)

The cell source (`OutputCellIterator`) is an external collaborator; per the
spec's interface contract it yields `(glyphText, dbcsClass, style,
styleWriteMode)` tuples in order, modelled as a list of `Cell`s.  `++it`
advances to the tail; the iterator is valid while the list is non-empty. -/

/-- One cell from a cell source. -/
structure Cell where
  chars : List Nat
  dbcs : DbcsAttr
  attr : Nat
  behavior : TABehavior
deriving DecidableEq, Repr

/-- Color-run bookkeeping at the head of each `WriteCells` loop iteration
(Row.cpp:84-102).  Returns the possibly-updated row (a run may be committed)
and the new `(colorStarts, colorUses, currentColor)`. -/
def colorStep (r : ROW) (c : Cell) (colorStarts colorUses currentColor currentIndex : Nat) :
    ROW × Nat × Nat × Nat :=
  if c.behavior ≠ .current then
    if currentColor = c.attr then (r, colorStarts, colorUses + 1, currentColor)
    else (replaceAttrRange r colorStarts currentIndex currentColor, currentIndex, 1, c.attr)
  else (r, colorStarts, colorUses, currentColor)

/-- Commit of the final color run after the loop (Row.cpp:153-157). -/
def commitFinal (r : ROW) (colorStarts colorUses currentColor currentIndex : Nat) : ROW :=
  if colorUses ≠ 0 then replaceAttrRange r colorStarts currentIndex currentColor else r

/-- Body of the `WriteCells` loop.  `currentIndex` increases by exactly one in
every iteration, so the loop runs at most `final + 1 - currentIndex` times; the
fuel argument is kept equal to `final + 2 - currentIndex`, which makes the
zero-fuel case coincide with the `currentIndex > final` exit. -/
def writeLoop : Nat → ROW → List Cell → Nat → Nat → Nat → Nat → Nat → Option Bool →
    Except RowErr (ROW × List Cell)
  | 0, r, cells, currentIndex, _, colorStarts, colorUses, currentColor, _ =>
    .ok (commitFinal r colorStarts colorUses currentColor currentIndex, cells)
  | Nat.succ fuel, r, cells, currentIndex, final, colorStarts, colorUses, currentColor, wrap =>
    match cells with
    | [] => .ok (commitFinal r colorStarts colorUses currentColor currentIndex, [])
    | c :: rest =>
      if final < currentIndex then
        .ok (commitFinal r colorStarts colorUses currentColor currentIndex, c :: rest)
      else
        match colorStep r c colorStarts colorUses currentColor currentIndex with
        | (r1, cS, cU, cC) =>
          if c.behavior ≠ .storedOnly then
            let fillingLast := currentIndex = final
            let textRes : Except RowErr (ROW × List Cell) :=
              if currentIndex = 0 ∧ c.dbcs = .trailing then
                (clearCell r1 0).map (fun r2 => (r2, c :: rest))
              else if fillingLast ∧ c.dbcs = .leading then
                (clearCell r1 currentIndex).map
                  (fun r2 => ({ r2 with doubleBytePadded := true }, c :: rest))
              else
                (replaceChar r1 currentIndex c.dbcs c.chars).map (fun r2 => (r2, rest))
            match textRes with
            | .error e => .error e
            | .ok (r2, cells') =>
              let r3 := if wrap.isSome ∧ fillingLast then
                          { r2 with wrapForced := wrap.getD false } else r2
              writeLoop fuel r3 cells' (currentIndex + 1) final cS cU cC wrap
          else
            writeLoop fuel r1 rest (currentIndex + 1) final cS cU cC wrap

/-- Model of `ROW::WriteCells(it, index, wrap, limitRight)`: validate the column
arguments, then run the write loop starting at `index` with the color run
seeded from the first cell's attribute. -/
def writeCells (r : ROW) (cells : List Cell) (index : Nat) (wrap : Option Bool)
    (limitRight : Option Nat) : Except RowErr (ROW × List Cell) :=
  if r.indicesCount ≤ index then .error .invalidArg
  else if r.indicesCount ≤ limitRight.getD 0 then .error .invalidArg
  else
    let finalColumnInRow := limitRight.getD (r.indicesCount - 1)
    let currentColor := (cells.head?.map Cell.attr).getD 0
    writeLoop (finalColumnInRow + 2 - index) r cells index finalColumnInRow
      index 0 currentColor wrap

/-! ### Invariant and reachability predicates -/

/-- Boolean test that a list is non-decreasing. -/
def isNondecreasing : List Nat → Bool
  | a :: b :: t => decide (a ≤ b) && isNondecreasing (b :: t)
  | _ => true

/-- Used length of the packed text store: `_indices[_indicesCount]`. -/
def usedLength (r : ROW) : Nat := (r.indices.get? r.indicesCount).getD 0

/-- Structural well-formedness of a `ROW`: the index array has `width + 1`
entries, the byte buffer covers the capacity, and the capacity covers the
width. -/
def Wf (r : ROW) : Prop :=
  r.indices.length = r.indicesCount + 1 ∧
  r.chars.length = 2 * r.charsCapacity ∧
  r.indicesCount ≤ r.charsCapacity

instance (r : ROW) : Decidable (Wf r) := by unfold Wf; infer_instance

/-- One public mutating operation applied successfully. -/
inductive Step : ROW → ROW → Prop where
  | reset (a : Nat) : reset r a = .ok r' → Step r r'
  | replaceText (x w : Nat) (cs : List Nat) : replaceTextRaw r x w cs = .ok r' → Step r r'
  | replaceChar (x : Nat) (d : DbcsAttr) (cs : List Nat) :
      replaceChar r x d cs = .ok r' → Step r r'
  | clearColumn (c : Nat) : clearColumn r c = .ok r' → Step r r'
  | writeCells (cells : List Cell) (i : Nat) (w : Option Bool) (l : Option Nat)
      (rest : List Cell) : writeCells r cells i w l = .ok (r', rest) → Step r r'
  | replaceAttrRange (b e v : Nat) : Step r (replaceAttrRange r b e v)
  | setAttrToEnd (b v : Nat) : Step r (setAttrToEnd r b v)
  | replaceAttrs (old new : Nat) : Step r (replaceAttrs r old new)
  | setWrapForced (b : Bool) : Step r { r with wrapForced := b }
  | setDoubleBytePadded (b : Bool) : Step r { r with doubleBytePadded := b }
  | setLineRendition (n : Nat) : Step r { r with lineRendition := n }

/-- Row states reachable from construction through the public interface. -/
inductive Reachable : ROW → Prop where
  | init (w a : Nat) : Reachable (rowInit w a)
  | step : Reachable r → Step r r' → Reachable r'

/-! ### Concrete states used as witnesses (computed by evaluating the model) -/

/-- Result of `replaceText(0, 2, "W")` on a fresh width-4 row. -/
def rowMidGrow : ROW :=
  ⟨[87, 205, 32, 0, 205, 205, 205, 205, 205, 205, 205, 205], 6,
   [0, 0, 3, 4, 5], 4, [(0, 4)], 0, false, false⟩

/-- Result of a further `replaceText(3, 1, "abc")`: its used length
`indices[4] = 3` differs from the width 4. -/
def rowUsedShort : ROW :=
  ⟨[87, 205, 32, 0, 205, 205, 205, 205, 97, 0, 98, 205], 6,
   [0, 0, 3, 4, 3], 4, [(0, 4)], 0, false, false⟩

/-- Result of writing one Current-mode cell `x` on a fresh width-2 row with
fill style 7. -/
def rowCurrentOnly : ROW :=
  ⟨[120, 0, 32, 0], 2, [0, 1, 2], 2, [(7, 2)], 0, false, false⟩

/-- Result of writing a wide glyph "ab" at column 0 of a fresh width-3 row. -/
def rowWideAt0 : ROW :=
  ⟨[97, 0, 32, 0, 32, 0], 3, [0, 0, 2, 3], 3, [(0, 3)], 0, false, false⟩

end TermRow

deriving instance DecidableEq for Except

namespace TermRow

/-! ### Supporting lemmas -/

theorem get?_range {n m : Nat} (h : n < m) : (List.range m).get? n = some n := by
  rw [List.get?_eq_getElem?, List.getElem?_range h]

theorem get?_none_of_len {l : List Nat} {n : Nat} (h : l.length ≤ n) : l.get? n = none := by
  rw [List.get?_eq_getElem?]
  exact List.getElem?_eq_none h

theorem mapIdxFrom_length (f : Nat → Nat → Nat) :
    ∀ (i : Nat) (l : List Nat), (mapIdxFrom f i l).length = l.length := by
  intro i l
  induction l generalizing i with
  | nil => rfl
  | cons v vs ih => simp [mapIdxFrom, ih]

theorem mapIdxFrom_get? (f : Nat → Nat → Nat) :
    ∀ (i j : Nat) (l : List Nat),
      (mapIdxFrom f i l).get? j = (l.get? j).map (f (i + j)) := by
  intro i j l
  induction l generalizing i j with
  | nil => simp [mapIdxFrom]
  | cons v vs ih =>
    cases j with
    | zero => simp [mapIdxFrom]
    | succ j =>
      simp only [mapIdxFrom, List.get?]
      rw [ih (i + 1) j]
      have h2 : i + 1 + j = i + (j + 1) := by omega
      rw [h2]

theorem mapRange_length (l : List Nat) (a b : Nat) (f : Nat → Nat) :
    (mapRange l a b f).length = l.length := mapIdxFrom_length _ 0 l

theorem setRange_length (l : List Nat) (a b v : Nat) :
    (setRange l a b v).length = l.length := mapRange_length l a b _

theorem mapRange_get? (l : List Nat) (a b : Nat) (f : Nat → Nat) (j : Nat) :
    (mapRange l a b f).get? j =
      (l.get? j).map (fun v => if a ≤ j ∧ j < b then f v else v) := by
  unfold mapRange
  rw [mapIdxFrom_get?]
  simp

theorem setRange_get?_in (l : List Nat) (a b v j : Nat) (h1 : a ≤ j) (h2 : j < b)
    (w : Nat) (hw : l.get? j = some w) : (setRange l a b v).get? j = some v := by
  unfold setRange
  rw [mapRange_get?, hw]
  simp [h1, h2]

theorem setRange_get?_out (l : List Nat) (a b v j : Nat) (h : ¬(a ≤ j ∧ j < b)) :
    (setRange l a b v).get? j = l.get? j := by
  unfold setRange
  rw [mapRange_get?]
  cases hg : l.get? j with
  | none => rfl
  | some w => simp [h]

theorem findNeAux_succ (inds : List Nat) (lhs i fuel : Nat) :
    findNeAux inds lhs i (fuel + 1) =
      match inds.get? i with
      | none => none
      | some v => if v = lhs then findNeAux inds lhs (i + 1) fuel else some (i, v) := rfl

theorem findNe_stop {inds : List Nat} {lhs i v : Nat}
    (hg : inds.get? i = some v) (hne : v ≠ lhs) : findNe inds lhs i = some (i, v) := by
  have hi : i < inds.length := (List.get?_eq_some.mp hg).1
  unfold findNe
  have h1 : inds.length + 1 - i = (inds.length - i) + 1 := by omega
  rw [h1, findNeAux_succ, hg]
  simp [hne]

theorem findNe_skip {inds : List Nat} {lhs i : Nat}
    (hg : inds.get? i = some lhs) : findNe inds lhs i = findNe inds lhs (i + 1) := by
  have hi : i < inds.length := (List.get?_eq_some.mp hg).1
  have h1 : inds.length + 1 - i = (inds.length + 1 - (i + 1)) + 1 := by omega
  unfold findNe
  rw [h1, findNeAux_succ, hg]
  simp

theorem findNe_oob {inds : List Nat} {lhs i : Nat}
    (hg : inds.get? i = none) : findNe inds lhs i = none := by
  unfold findNe
  cases h : inds.length + 1 - i with
  | zero => rfl
  | succ fuel =>
    rw [findNeAux_succ, hg]

theorem strBytes_length (s : List Nat) : (strBytes s).length = 2 * s.length := by
  induction s with
  | nil => rfl
  | cons u us ih => simp [strBytes] at ih ⊢; omega

theorem decodeW_length (l : List Nat) : (decodeW l).length = l.length / 2 := by
  induction l using decodeW.induct with
  | case1 => simp [decodeW]
  | case2 a => simp [decodeW]
  | case3 lo hi rest ih => simp [decodeW, ih]; omega

theorem writeBytes_length {l l' : List Nat} {off : Nat} {data : List Nat}
    (h : writeBytes l off data = some l') : l'.length = l.length := by
  unfold writeBytes at h
  split at h
  · cases h; rfl
  · split at h
    · cases h
      simp only [List.length_append, List.length_take, List.length_drop]
      omega
    · cases h

theorem readBytes_length {l bs : List Nat} {off n : Nat}
    (h : readBytes l off n = some bs) : bs.length = n := by
  unfold readBytes at h
  by_cases h0 : n = 0
  · rw [if_pos h0] at h
    cases h
    simp [h0]
  · rw [if_neg h0] at h
    split at h
    · rename_i hle
      cases h
      simp only [List.length_take, List.length_drop]
      omega
    · cases h

theorem memcpyB_length {dst src l' : List Nat} {dstOff srcOff n : Nat}
    (h : memcpyB dst dstOff src srcOff n = some l') : l'.length = dst.length := by
  unfold memcpyB at h
  cases hr : readBytes src srcOff n with
  | none => rw [hr] at h; cases h
  | some bs =>
    rw [hr] at h
    exact writeBytes_length h

theorem wmemsetB_length {l l' : List Nat} {off n w : Nat}
    (h : wmemsetB l off n w = some l') : l'.length = l.length := writeBytes_length h

/-- Shape of a successful `replaceTextRaw`: only the text fields change, the
index array keeps its length, and structural well-formedness is preserved. -/
theorem replaceTextRaw_ok {r r' : ROW} {x w' : Nat} {cs : List Nat}
    (h : replaceTextRaw r x w' cs = .ok r') :
    r'.attr = r.attr ∧ r'.indicesCount = r.indicesCount ∧
      r'.wrapForced = r.wrapForced ∧ r'.doubleBytePadded = r.doubleBytePadded ∧
      r'.lineRendition = r.lineRendition ∧
      r'.indices.length = r.indices.length ∧ (Wf r → Wf r') := by
  simp only [replaceTextRaw] at h
  split at h
  · cases h
    exact ⟨rfl, rfl, rfl, rfl, rfl, rfl, fun hw => hw⟩
  · split at h
    · cases h
    · split at h
      · cases h
      · rename_i lhs hlhs p hfind
        split at h
        · -- diff = 0 branch
          rw [Except.bind] at h
          split at h
          · cases h
          · rename_i chars2 hcpy
            cases h
            refine ⟨rfl, rfl, rfl, rfl, rfl, ?_, ?_⟩
            · exact setRange_length _ _ _ _
            · intro hw
              obtain ⟨hw1, hw2, hw3⟩ := hw
              refine ⟨?_, ?_, hw3⟩
              · simpa [setRange_length] using hw1
              · simpa [memcpyB_length hcpy] using hw2
        · -- diff ≠ 0 branch
          split at h
          · rw [Except.bind] at h
            cases h
          · rename_i currentLength hcur
            split at h
            · -- in-place move
              split at h
              · rw [Except.map, Except.bind] at h
                cases h
              · rename_i chars1 hmove
                rw [Except.map, Except.bind] at h
                split at h
                · cases h
                · rename_i chars2 hcpy
                  cases h
                  refine ⟨rfl, rfl, rfl, rfl, rfl, ?_, ?_⟩
                  · exact (setRange_length _ _ _ _).trans (mapRange_length _ _ _ _)
                  · intro hw
                    obtain ⟨hw1, hw2, hw3⟩ := hw
                    refine ⟨?_, ?_, hw3⟩
                    · simpa [setRange_length, mapRange_length] using hw1
                    · simpa [memcpyB_length hcpy, memcpyB_length hmove] using hw2
            · -- grow
              split at h
              · rw [Except.map, Except.bind] at h
                cases h
              · rename_i c1 hc1
                split at h
                · rw [Except.map, Except.bind] at h
                  cases h
                · rename_i c2 hc2
                  rw [Except.map, Except.bind] at h
                  split at h
                  · cases h
                  · rename_i chars2 hcpy
                    cases h
                    refine ⟨rfl, rfl, rfl, rfl, rfl, ?_, ?_⟩
                    · exact (setRange_length _ _ _ _).trans (mapRange_length _ _ _ _)
                    · intro hw
                      obtain ⟨hw1, hw2, hw3⟩ := hw
                      refine ⟨?_, ?_, ?_⟩
                      · simpa [setRange_length, mapRange_length] using hw1
                      · have h1 := memcpyB_length hcpy
                        have h2 := memcpyB_length hc2
                        have h3 := memcpyB_length hc1
                        simp only [List.length_replicate] at h3
                        simp only [h1, h2, h3]
                      · exact le_trans hw3 (le_trans (Nat.le_add_right _ _)
                          (le_max_right _ _))

/-- Successful `clearCell` preserves the same fields. -/
theorem clearCell_ok {r r' : ROW} {c : Nat} (h : clearCell r c = .ok r') :
    r'.attr = r.attr ∧ r'.indicesCount = r.indicesCount ∧
      r'.wrapForced = r.wrapForced ∧ r'.doubleBytePadded = r.doubleBytePadded ∧
      r'.lineRendition = r.lineRendition ∧
      r'.indices.length = r.indices.length ∧ (Wf r → Wf r') :=
  replaceTextRaw_ok h

/-- Successful `replaceChar` preserves the same fields. -/
theorem replaceChar_ok {r r' : ROW} {x : Nat} {d : DbcsAttr} {cs : List Nat}
    (h : replaceChar r x d cs = .ok r') :
    r'.attr = r.attr ∧ r'.indicesCount = r.indicesCount ∧
      r'.wrapForced = r.wrapForced ∧ r'.doubleBytePadded = r.doubleBytePadded ∧
      r'.lineRendition = r.lineRendition ∧
      r'.indices.length = r.indices.length ∧ (Wf r → Wf r') :=
  replaceTextRaw_ok h

/-- Shape of a successful `reset`. -/
theorem reset_ok {r r' : ROW} {a : Nat} (h : reset r a = .ok r') :
    r'.chars.length = r.chars.length ∧ r'.indices = List.range (r.indicesCount + 1) ∧
      r'.indicesCount = r.indicesCount ∧ r'.charsCapacity = r.charsCapacity ∧
      (Wf r → Wf r') := by
  unfold reset at h
  split at h
  · cases h
  · split at h
    · cases h
    · rename_i chars1 hset
      cases h
      refine ⟨wmemsetB_length hset, rfl, rfl, rfl, ?_⟩
      intro hw
      obtain ⟨hw1, hw2, hw3⟩ := hw
      refine ⟨by simp, ?_, hw3⟩
      simpa [wmemsetB_length hset] using hw2

theorem wf_commitFinal {r : ROW} {cS cU cC ci : Nat} (hw : Wf r) :
    Wf (commitFinal r cS cU cC ci) := by
  unfold commitFinal
  split
  · exact hw
  · exact hw

theorem wf_colorStep {r : ROW} {c : Cell} {cS cU cC ci : Nat} (hw : Wf r) :
    Wf (colorStep r c cS cU cC ci).1 := by
  unfold colorStep
  split
  · split
    · exact hw
    · exact hw
  · exact hw

/-- The write loop preserves structural well-formedness. -/
theorem writeLoop_wf (fuel : Nat) :
    ∀ (r : ROW) (cells : List Cell) (ci fin cS cU cC : Nat) (wrap : Option Bool)
      (r' : ROW) (rest : List Cell),
      writeLoop fuel r cells ci fin cS cU cC wrap = .ok (r', rest) → Wf r → Wf r' := by
  induction fuel with
  | zero =>
    intro r cells ci fin cS cU cC wrap r' rest h hw
    simp only [writeLoop] at h
    cases h
    exact wf_commitFinal hw
  | succ fuel ih =>
    intro r cells ci fin cS cU cC wrap r' rest h hw
    cases cells with
    | nil =>
      simp only [writeLoop] at h
      cases h
      exact wf_commitFinal hw
    | cons c rest0 =>
      simp only [writeLoop] at h
      split at h
      · cases h
        exact wf_commitFinal hw
      · have hw1 : Wf (colorStep r c cS cU cC ci).1 := wf_colorStep hw
        split at h
        · -- text branch
          by_cases h1 : ci = 0 ∧ c.dbcs = DbcsAttr.trailing
          · rw [if_pos h1] at h
            cases hcc : clearCell (colorStep r c cS cU cC ci).1 0 with
            | error e => rw [hcc] at h; simp [Except.map] at h
            | ok r2 =>
              rw [hcc] at h
              simp only [Except.map] at h
              have hw2 : Wf r2 := (clearCell_ok hcc).2.2.2.2.2.2 hw1
              refine ih _ _ _ _ _ _ _ _ _ _ h ?_
              split
              · exact hw2
              · exact hw2
          · rw [if_neg h1] at h
            by_cases h2 : ci = fin ∧ c.dbcs = DbcsAttr.leading
            · rw [if_pos h2] at h
              cases hcc : clearCell (colorStep r c cS cU cC ci).1 ci with
              | error e => rw [hcc] at h; simp [Except.map] at h
              | ok r2 =>
                rw [hcc] at h
                simp only [Except.map] at h
                have hw2 : Wf r2 := (clearCell_ok hcc).2.2.2.2.2.2 hw1
                refine ih _ _ _ _ _ _ _ _ _ _ h ?_
                split
                · exact hw2
                · exact hw2
            · rw [if_neg h2] at h
              cases hcc : replaceChar (colorStep r c cS cU cC ci).1 ci c.dbcs c.chars with
              | error e => rw [hcc] at h; simp [Except.map] at h
              | ok r2 =>
                rw [hcc] at h
                simp only [Except.map] at h
                have hw2 : Wf r2 := (replaceChar_ok hcc).2.2.2.2.2.2 hw1
                refine ih _ _ _ _ _ _ _ _ _ _ h ?_
                split
                · exact hw2
                · exact hw2
        · -- storedOnly branch
          exact ih _ _ _ _ _ _ _ _ _ _ h hw1

/-- Full `WriteCells` preserves structural well-formedness. -/
theorem writeCells_wf {r r' : ROW} {cells rest : List Cell} {i : Nat}
    {wrap : Option Bool} {lim : Option Nat}
    (h : writeCells r cells i wrap lim = .ok (r', rest)) (hw : Wf r) : Wf r' := by
  unfold writeCells at h
  split at h
  · cases h
  · split at h
    · cases h
    · exact writeLoop_wf _ _ _ _ _ _ _ _ _ _ _ h hw

/-- The initial row state is well-formed. -/
theorem wf_rowInit (w a : Nat) : Wf (rowInit w a) := by
  refine ⟨by simp [rowInit], ?_, le_refl w⟩
  simp [rowInit, strBytes_length]

/-- Every public operation preserves structural well-formedness. -/
theorem step_wf {r r' : ROW} (h : Step r r') (hw : Wf r) : Wf r' := by
  cases h with
  | reset a he => exact (reset_ok he).2.2.2.2 hw
  | replaceText x w cs he => exact (replaceTextRaw_ok he).2.2.2.2.2.2 hw
  | replaceChar x d cs he => exact (replaceChar_ok he).2.2.2.2.2.2 hw
  | clearColumn c he =>
    unfold clearColumn at he
    split at he
    · cases he
    · exact (clearCell_ok he).2.2.2.2.2.2 hw
  | writeCells cells i w l rest he => exact writeCells_wf he hw
  | replaceAttrRange b e v => exact hw
  | setAttrToEnd b v => exact hw
  | replaceAttrs old new => exact hw
  | setWrapForced b => exact hw
  | setDoubleBytePadded b => exact hw
  | setLineRendition n => exact hw

/-- Every reachable row state is well-formed. -/
theorem reachable_wf {r : ROW} (h : Reachable r) : Wf r := by
  induction h with
  | init w a => exact wf_rowInit w a
  | step _ hs ih => exact step_wf hs ih

/-- Color bookkeeping is the identity for a Current-mode cell. -/
theorem colorStep_current {r : ROW} {c : Cell} {cS cU cC ci : Nat}
    (h : c.behavior = .current) : colorStep r c cS cU cC ci = (r, cS, cU, cC) := by
  unfold colorStep
  rw [if_neg (by simp [h])]

/-- With no color uses accumulated, the final commit leaves the row alone. -/
theorem commitFinal_zero (r : ROW) (cS cC ci : Nat) :
    commitFinal r cS 0 cC ci = r := by
  unfold commitFinal
  simp

/-- The write loop never touches the style run list when every cell is
Current-mode: the color bookkeeping is skipped for each cell, `colorUses`
stays zero, and the final commit is therefore skipped as well. -/
theorem writeLoop_current_attr (fuel : Nat) :
    ∀ (r : ROW) (cells : List Cell) (ci fin cS cC : Nat) (wrap : Option Bool)
      (r' : ROW) (rest : List Cell),
      (∀ c ∈ cells, c.behavior = .current) →
      writeLoop fuel r cells ci fin cS 0 cC wrap = .ok (r', rest) →
      r'.attr = r.attr := by
  induction fuel with
  | zero =>
    intro r cells ci fin cS cC wrap r' rest hall h
    simp only [writeLoop] at h
    cases h
    rw [commitFinal_zero]
  | succ fuel ih =>
    intro r cells ci fin cS cC wrap r' rest hall h
    cases cells with
    | nil =>
      simp only [writeLoop] at h
      cases h
      rw [commitFinal_zero]
    | cons c rest0 =>
      have hc : c.behavior = .current := hall c (List.mem_cons_self c rest0)
      simp only [writeLoop] at h
      split at h
      · cases h
        rw [commitFinal_zero]
      · rw [colorStep_current hc] at h
        simp only at h
        rw [if_pos (by rw [hc]; simp)] at h
        by_cases h1 : ci = 0 ∧ c.dbcs = DbcsAttr.trailing
        · rw [if_pos h1] at h
          cases hcc : clearCell r 0 with
          | error e => rw [hcc] at h; simp [Except.map] at h
          | ok r2 =>
            rw [hcc] at h
            simp only [Except.map] at h
            have := ih _ _ _ _ _ _ _ _ _ hall h
            rw [this]
            have h2 := (clearCell_ok hcc).1
            split
            · exact h2
            · exact h2
        · rw [if_neg h1] at h
          by_cases h2 : ci = fin ∧ c.dbcs = DbcsAttr.leading
          · rw [if_pos h2] at h
            cases hcc : clearCell r ci with
            | error e => rw [hcc] at h; simp [Except.map] at h
            | ok r2 =>
              rw [hcc] at h
              simp only [Except.map] at h
              have := ih _ _ _ _ _ _ _ _ _ hall h
              rw [this]
              have h3 := (clearCell_ok hcc).1
              split
              · exact h3
              · exact h3
          · rw [if_neg h2] at h
            cases hcc : replaceChar r ci c.dbcs c.chars with
            | error e => rw [hcc] at h; simp [Except.map] at h
            | ok r2 =>
              rw [hcc] at h
              simp only [Except.map] at h
              have hall0 : ∀ c' ∈ rest0, c'.behavior = TABehavior.current :=
                fun c' hm => hall c' (List.mem_cons_of_mem c hm)
              have := ih _ _ _ _ _ _ _ _ _ hall0 h
              rw [this]
              have h3 := (replaceChar_ok hcc).1
              split
              · exact h3
              · exact h3

/-! ### Claim theorems: concrete evaluations -/

/-- C1 (code bug): the invariant fails on a concrete operation sequence.  On a
fresh width-4 row, `replaceText(0, 2, "W")` followed by
`replaceText(3, 1, "abc")` completes without any error signal, yet leaves
`indices = [0, 0, 3, 4, 3]`, which is not non-decreasing: the size delta
`diff = rhs - lhs - chars.size()` in `ROW::Replace` has the inverted sign, so
the suffix indices are shifted in the wrong direction. -/
theorem claim1_invariant_broken :
    ((replaceTextRaw (rowInit 4 0) 0 2 [87]).bind
        (fun r => replaceTextRaw r 3 1 [97, 98, 99])).map
      (fun r => (r.indices, isNondecreasing r.indices)) =
    .ok ([0, 0, 3, 4, 3], false) := by decide

/-- C2 (code bug): after the same two completing `replaceText` operations the
used length `indices[w]` has become 3 (< w = 4), so `Reset` blankets only 3
wchars; the fourth wchar of `fullText()` is leftover uninitialized memory
(sentinel 0xCDCD = 52685), not a blank, even though the indices and the style
run list are correctly reset. -/
theorem claim2_reset_not_blank :
    (((replaceTextRaw (rowInit 4 0) 0 2 [87]).bind
        (fun r => replaceTextRaw r 3 1 [97, 98, 99])).bind
      (fun r => reset r 5)).map
        (fun r => ((readBytes r.chars 0 (2 * r.indicesCount)).map decodeW,
                   r.indices, r.attr)) =
      .ok (some [32, 32, 32, 52685], [0, 1, 2, 3, 4], [(5, 4)]) ∧
    [32, 32, 32, 52685] ≠ List.replicate 4 32 := by
  constructor
  · decide
  · decide

/-- C3 (code bug): writing the single-width glyph U+042F at column 0 of a
fresh width-1 row and reading it back through `GlyphAt` yields U+002F: the
`memcpy(_chars + lhs, chars.data(), chars.size())` in `ROW::Replace` passes
the wchar count where a byte count is expected, so only the low byte of the
glyph is stored. -/
theorem claim3_roundtrip_broken :
    (replaceTextRaw (rowInit 1 0) 0 1 [1071]).bind (fun r => glyphAt r 0) =
      .ok [47] ∧ (47 : Nat) ≠ 1071 := by
  constructor
  · decide
  · decide

/-- C4 (counterexample): the claim does not hold from every prior state.  On a
width-3 row, write a wide glyph at columns 0-1, then write a wide glyph at
column 1 (c = 1 < width - 1).  Both operations complete, yet
`DbcsAttrAt(1)` returns `Trailing`, not `Leading`: the stale index of column 0
still equals column 1's offset, and trailing classification takes priority. -/
theorem claim4_counterexample :
    ((replaceChar (rowInit 3 0) 0 .leading [97, 98]).bind
        (fun r => replaceChar r 1 .leading [99, 100])).bind
      (fun r => dbcsAttrAt r 1) = .ok .trailing := by decide

/-- C5 (code bug): the boundary policy fires as specified (flag set, loop
ends, glyph left in the source), but the last column is not blank afterwards.
From a fresh width-3 row, `WriteCells` with two single cells carrying U+042F
U+042F and then a leading cell: the byte-counted copies leave the wchar that
the last column maps to with a non-zero high byte, and `ClearCell`'s one-byte
copy of the blank turns it into U+0420 instead of U+0020. -/
theorem claim5_not_cleared_to_blank :
    (writeCells (rowInit 3 7)
        [⟨[1071, 1071], .single, 5, .stored⟩,
         ⟨[1071, 1071], .single, 5, .stored⟩,
         ⟨[20013], .leading, 5, .stored⟩] 0 none none).map
      (fun p => (p.1.doubleBytePadded, p.2, glyphAt p.1 2)) =
      .ok (true, [⟨[20013], .leading, 5, .stored⟩], .ok [1056]) ∧
    (1056 : Nat) ≠ 32 := by
  constructor
  · decide
  · decide

/-- C6 (counterexample): with `startColumn = 1` on a fresh width-3 row, a
cell source whose first cell is the trailing half of a wide glyph is *not*
cleared-and-retried: the code's guard is `currentIndex == 0`, not "first
column to be written", so `Replace(1, Trailing, ..)` redirects to column 0
and writes the wide glyph over columns 0-1, consuming the cell.  The claim's
policy ("column 1 is cleared to blank instead of written, the cursor does
not advance, the cell is retried against the next column") never touches any
column left of the start column, so under the claim column 0 would remain
the blank Single cell it is after reset (`dbcsAttrAt = Single`,
`glyphAt = [32]`).  The code instead leaves column 0 as the written glyph's
leading half: `dbcsAttrAt(0) = Leading`, `glyphAt(0)` a non-blank 3-wchar
slice, column 1 its trailing half — column 1 was written, not cleared. -/
theorem claim6_counterexample :
    dbcsAttrAt (rowInit 3 7) 0 = .ok .single ∧
    glyphAt (rowInit 3 7) 0 = .ok [32] ∧
    (writeCells (rowInit 3 7) [⟨[120], .trailing, 5, .stored⟩] 1 none none).map
        (fun p => (dbcsAttrAt p.1 0, glyphAt p.1 0, dbcsAttrAt p.1 1, p.2)) =
      .ok (.ok .leading, .ok [52600, 52512, 52685], .ok .trailing, []) ∧
    DbcsAttr.leading ≠ DbcsAttr.single ∧
    ([52600, 52512, 52685] : List Nat) ≠ [32] := by
  refine ⟨by decide, by decide, by decide, by decide, by decide⟩

/-- C7 (counterexample): a Current-mode cell's column does not retain its
style.  Width-2 row filled with style 7; cells: a Current-mode cell with
attribute 3 at column 0, then a Stored-mode cell with attribute 3.  The final
run commit spans `[colorStarts, currentIndex) = [0, 2)`, overwriting column
0's style with 3 even though its cell was Current-mode. -/
theorem claim7_counterexample :
    (writeCells (rowInit 2 7)
        [⟨[120], .single, 3, .current⟩, ⟨[121], .single, 3, .stored⟩]
        0 none none).map (fun p => rleAt p.1.attr 0) = .ok (some 3) ∧
    rleAt (rowInit 2 7).attr 0 = some 7 ∧ (3 : Nat) ≠ 7 := by
  refine ⟨by decide, by decide, by decide⟩

/-- C8 (counterexample): the text-replace operation does not signal
`InvalidArgument` for a column argument at or beyond the width.  On a fresh
width-1 row, `Replace(1, 1, "x")` clamps the column to the width, its index
scan starts at the final index entry (whose value equals `lhs`), steps past
the end of the array, and performs an out-of-bounds read. -/
theorem claim8_counterexample :
    replaceTextRaw (rowInit 1 0) 1 1 [120] = .error .oob ∧
    replaceTextRaw (rowInit 1 0) 1 1 [120] ≠ .error .invalidArg := by
  constructor
  · decide
  · decide

/-- C9 (code bug): `ContainsText` searches for the *blank* character.  A
freshly constructed width-1 row contains only blanks, so the claim requires
`false`, but the code's `wmemchr(_chars, L' ', used) != nullptr` finds the
blank and returns `true`. -/
theorem claim9_polarity_inverted :
    containsText (rowInit 1 0) = .ok true ∧
    getText (rowInit 1 0) = .ok (List.replicate 1 32) := by
  constructor
  · decide
  · decide

/-! ### Claim theorems: general statements -/

/-- C10: in every reachable row state, `GetText` succeeds and returns exactly
the first `width` wchars of the backing buffer — the slice is determined by
the width alone, never by the indices (in particular also when the used
length `indices[width]` differs from the width, as in the witness state). -/
theorem claim10_fullText_width (r : ROW) (h : Reachable r) :
    getText r = .ok (decodeW (r.chars.take (2 * r.indicesCount))) ∧
      (decodeW (r.chars.take (2 * r.indicesCount))).length = r.indicesCount := by
  obtain ⟨hw1, hw2, hw3⟩ := reachable_wf h
  have hr : readBytes r.chars 0 (2 * r.indicesCount) =
      some (r.chars.take (2 * r.indicesCount)) := by
    unfold readBytes
    by_cases h0 : 2 * r.indicesCount = 0
    · rw [if_pos h0, h0]
      simp
    · rw [if_neg h0, if_pos (by omega)]
      rw [List.drop_zero]
  constructor
  · unfold getText
    rw [hr]
  · rw [decodeW_length, List.length_take]
    omega

/-- Witness for C10 at a concrete reachable state whose used length (3)
differs from its width (4). -/
theorem claim10_witness :
    (getText rowUsedShort =
        .ok (decodeW (rowUsedShort.chars.take (2 * rowUsedShort.indicesCount))) ∧
      (decodeW (rowUsedShort.chars.take (2 * rowUsedShort.indicesCount))).length =
        rowUsedShort.indicesCount) ∧
    usedLength rowUsedShort ≠ rowUsedShort.indicesCount :=
  ⟨claim10_fullText_width rowUsedShort
      (Reachable.step
        (Reachable.step (Reachable.init 4 0)
          (@Step.replaceText (rowInit 4 0) rowMidGrow 0 2 [87] (by decide)))
        (@Step.replaceText rowMidGrow rowUsedShort 3 1 [97, 98, 99] (by decide))),
    by decide⟩

/-- C6 (amended): the trailing-half clearing applies exactly when
`currentIndex = 0`.  At column 0, a non-StoredOnly trailing cell causes the
column to be cleared via `ClearCell(0)` while the cell list is *not* advanced:
the loop continues at column 1 with the very same cell list. -/
theorem claim6_amended (fuel : Nat) (r : ROW) (c : Cell) (rest : List Cell)
    (fin cS cU cC : Nat) (wrap : Option Bool)
    (hb : c.behavior ≠ .storedOnly) (hd : c.dbcs = .trailing) (hf : 0 < fin) :
    writeLoop (fuel + 1) r (c :: rest) 0 fin cS cU cC wrap =
      (clearCell (colorStep r c cS cU cC 0).1 0).bind
        (fun r2 => writeLoop fuel r2 (c :: rest) 1 fin
          (colorStep r c cS cU cC 0).2.1 (colorStep r c cS cU cC 0).2.2.1
          (colorStep r c cS cU cC 0).2.2.2 wrap) := by
  simp only [writeLoop]
  rw [if_neg (by omega : ¬ fin < 0)]
  rw [if_pos hb]
  simp only [true_and]
  rw [if_pos hd]
  cases hcc : clearCell (colorStep r c cS cU cC 0).1 0 with
  | error e => simp [Except.map, Except.bind]
  | ok r2 =>
    simp only [Except.map, Except.bind]
    rw [if_neg (fun hx => (by omega : ¬ (0 : Nat) = fin) hx.2)]

/-- Witness for C6 at a concrete input: width-3 row, one Stored trailing
cell, written from column 0 with `rightLimit = 2`. -/
theorem claim6_witness :
    writeLoop 3 (rowInit 3 7) [⟨[120], .trailing, 5, .stored⟩] 0 2 0 0 5 none =
      (clearCell (colorStep (rowInit 3 7) ⟨[120], .trailing, 5, .stored⟩ 0 0 5 0).1 0).bind
        (fun r2 => writeLoop 2 r2 [⟨[120], .trailing, 5, .stored⟩] 1 2
          (colorStep (rowInit 3 7) ⟨[120], .trailing, 5, .stored⟩ 0 0 5 0).2.1
          (colorStep (rowInit 3 7) ⟨[120], .trailing, 5, .stored⟩ 0 0 5 0).2.2.1
          (colorStep (rowInit 3 7) ⟨[120], .trailing, 5, .stored⟩ 0 0 5 0).2.2.2 none) :=
  claim6_amended 2 (rowInit 3 7) ⟨[120], .trailing, 5, .stored⟩ [] 2 0 0 5 none
    (by decide) (by decide) (by decide)

/-- C7 (amended): a `WriteCells` call in which *every* cell carries the
Current style-write mode performs no style mutation at all: the style run
list — and hence every column's style — is exactly what it was before the
call.  (With mixed modes this fails; see the counterexample.) -/
theorem claim7_amended (r : ROW) (cells : List Cell) (i : Nat) (wrap : Option Bool)
    (lim : Option Nat) (r' : ROW) (rest : List Cell)
    (hall : ∀ c ∈ cells, c.behavior = .current)
    (h : writeCells r cells i wrap lim = .ok (r', rest)) :
    r'.attr = r.attr ∧ ∀ col, rleAt r'.attr col = rleAt r.attr col := by
  unfold writeCells at h
  split at h
  · cases h
  · split at h
    · cases h
    · have hattr := writeLoop_current_attr _ _ _ _ _ _ _ _ _ _ hall h
      exact ⟨hattr, fun col => by rw [hattr]⟩

/-- Witness for C7 at a concrete input: one Current-mode cell on a width-2
row filled with style 7; the style list stays `[(7, 2)]`. -/
theorem claim7_witness :
    rowCurrentOnly.attr = (rowInit 2 7).attr ∧
      ∀ col, rleAt rowCurrentOnly.attr col = rleAt (rowInit 2 7).attr col :=
  claim7_amended (rowInit 2 7) [⟨[120], .single, 3, .current⟩] 0 none none
    rowCurrentOnly [] (by decide) (by decide)

/-- C8 (amended): `ClearColumn` and `WriteCells` validate their column
arguments up front and signal `InvalidArgument` before any mutation; the raw
text-replace operation `Replace(size_t, size_t, wstring_view)` performs no
such validation — it clamps the start column to the width and, for any column
argument at or beyond the width (with non-empty text), its index scan reads
past the end of the `indices` array instead. -/
theorem claim8_amended :
    (∀ (r : ROW) (col : Nat), r.indicesCount ≤ col →
        clearColumn r col = .error .invalidArg) ∧
    (∀ (r : ROW) (cells : List Cell) (i : Nat) (wrap : Option Bool) (lim : Option Nat),
        r.indicesCount ≤ i → writeCells r cells i wrap lim = .error .invalidArg) ∧
    (∀ (r : ROW) (cells : List Cell) (i : Nat) (wrap : Option Bool) (lim : Option Nat),
        r.indicesCount ≤ lim.getD 0 → writeCells r cells i wrap lim = .error .invalidArg) ∧
    (∀ (r : ROW) (col w' : Nat) (cs : List Nat), Wf r → r.indicesCount ≤ col →
        cs ≠ [] → replaceTextRaw r col w' cs = .error .oob) := by
  refine ⟨?_, ?_, ?_, ?_⟩
  · intro r col h
    unfold clearColumn
    rw [if_pos h]
  · intro r cells i wrap lim h
    unfold writeCells
    rw [if_pos h]
  · intro r cells i wrap lim h
    unfold writeCells
    by_cases h1 : r.indicesCount ≤ i
    · rw [if_pos h1]
    · rw [if_neg h1, if_pos h]
  · intro r col w' cs hw hcol hcs
    have hlen : cs.length ≠ 0 := fun h0 => hcs (List.length_eq_zero.mp h0)
    have hmin : min col r.indicesCount = r.indicesCount := Nat.min_eq_right hcol
    obtain ⟨hv, _⟩ := hw
    have hsome : ∃ lhs, r.indices.get? r.indicesCount = some lhs := by
      have : r.indicesCount < r.indices.length := by omega
      cases hg : r.indices.get? r.indicesCount with
      | none =>
        rw [List.get?_eq_getElem?] at hg
        rw [List.getElem?_eq_none_iff] at hg
        omega
      | some lhs => exact ⟨lhs, rfl⟩
    obtain ⟨lhs, hg⟩ := hsome
    have hnone : r.indices.get? (r.indicesCount + 1) = none :=
      get?_none_of_len (by omega)
    have hmin2 : min (r.indicesCount + w') r.indicesCount = r.indicesCount :=
      Nat.min_eq_right (Nat.le_add_right _ _)
    simp only [replaceTextRaw]
    rw [if_neg hlen, hmin, hmin2]
    simp only [hg]
    rw [findNe_skip hg, findNe_oob hnone]

/-- Writing a wide (2-column) glyph at column `c` of a freshly reset row:
whenever the operation completes, the resulting index array is
`setRange X c (c + 2) c` for a base array `X` that agrees with the identity
mapping below position `c + 2`. -/
theorem replaceWide_rowInit_shape (w a c : Nat) (t : List Nat) (r' : ROW)
    (hc : c + 1 < w) (ht : t ≠ [])
    (h : replaceChar (rowInit w a) c .leading t = .ok r') :
    r'.indicesCount = w ∧
      ∃ X : List Nat, r'.indices = setRange X c (c + 2) c ∧ X.length = w + 1 ∧
        ∀ j, j < c + 2 → X.get? j = some j := by
  have hlen : t.length ≠ 0 := fun h0 => ht (List.length_eq_zero.mp h0)
  have hmin1 : min c w = c := Nat.min_eq_left (by omega)
  have hmin2 : min (c + 2) w = c + 2 := Nat.min_eq_left (by omega)
  have hgc : (List.range (w + 1)).get? c = some c := get?_range (by omega)
  have hgc2 : (List.range (w + 1)).get? (c + 2) = some (c + 2) := get?_range (by omega)
  have hgw : (List.range (w + 1)).get? w = some w := get?_range (by omega)
  have hfind : findNe (List.range (w + 1)) c (c + 2) = some (c + 2, c + 2) :=
    findNe_stop hgc2 (by omega)
  simp only [replaceChar] at h
  rw [if_neg (fun hx => DbcsAttr.noConfusion hx.1)] at h
  rw [if_neg (fun hx => DbcsAttr.noConfusion hx)] at h
  simp only [replaceTextRaw, rowInit] at h
  rw [if_neg hlen] at h
  rw [hmin1] at h
  simp only [hgc] at h
  rw [hmin2] at h
  rw [hfind] at h
  simp only at h
  split at h
  · -- size delta zero: the indices are only overwritten on [c, c + 2)
    rw [Except.bind] at h
    split at h
    · cases h
    · cases h
      refine ⟨rfl, List.range (w + 1), rfl, by simp, fun j hj => get?_range (by omega)⟩
  · -- size delta nonzero: the suffix from c + 2 is shifted first
    simp only [hgw] at h
    split at h
    · -- in-place move
      split at h
      · rw [Except.map, Except.bind] at h
        cases h
      · rw [Except.map, Except.bind] at h
        split at h
        · cases h
        · cases h
          refine ⟨rfl, mapRange (List.range (w + 1)) (c + 2) (w + 1) _, rfl, ?_, ?_⟩
          · rw [mapRange_length]
            simp
          · intro j hj
            rw [mapRange_get?, get?_range (by omega)]
            simp only [Option.map_some']
            rw [if_neg (fun hx => by omega)]
    · -- grow
      split at h
      · rw [Except.map, Except.bind] at h
        cases h
      · split at h
        · rw [Except.map, Except.bind] at h
          cases h
        · rw [Except.map, Except.bind] at h
          split at h
          · cases h
          · cases h
            refine ⟨rfl, mapRange (List.range (w + 1)) (c + 2) (w + 1) _, rfl, ?_, ?_⟩
            · rw [mapRange_length]
              simp
            · intro j hj
              rw [mapRange_get?, get?_range (by omega)]
              simp only [Option.map_some']
              rw [if_neg (fun hx => by omega)]

/-- C4 (amended): writing a 2-column-wide glyph at column `c < width - 1` of
a *freshly reset* row — so that columns `c-1 .. c+2` are not already part of
a wide glyph — yields, whenever the write completes, `dbcsClassAt c =
Leading`, `dbcsClassAt (c+1) = Trailing`, and the same glyph slice at both
columns.  (From an arbitrary prior state the claim is false; see the
counterexample.) -/
theorem claim4_amended (w a c : Nat) (t : List Nat) (r' : ROW)
    (hc : c + 1 < w) (ht : t ≠ [])
    (h : replaceChar (rowInit w a) c .leading t = .ok r') :
    dbcsAttrAt r' c = .ok .leading ∧ dbcsAttrAt r' (c + 1) = .ok .trailing ∧
      glyphAt r' c = glyphAt r' (c + 1) := by
  obtain ⟨hn, X, hXeq, hXlen, hXget⟩ := replaceWide_rowInit_shape w a c t r' hc ht h
  have hgc : r'.indices.get? c = some c := by
    rw [hXeq]
    exact setRange_get?_in X c (c + 2) c c (le_refl c) (by omega) c (hXget c (by omega))
  have hgc1 : r'.indices.get? (c + 1) = some c := by
    rw [hXeq]
    exact setRange_get?_in X c (c + 2) c (c + 1) (by omega) (by omega) (c + 1)
      (hXget (c + 1) (by omega))
  have hgcm : 0 < c → r'.indices.get? (c - 1) = some (c - 1) := by
    intro hc0
    rw [hXeq, setRange_get?_out X c (c + 2) c (c - 1) (fun hx => by omega)]
    exact hXget (c - 1) (by omega)
  have hmc : min c (r'.indicesCount - 1) = c := by
    rw [hn]
    exact Nat.min_eq_left (by omega)
  have hmc1 : min (c + 1) (r'.indicesCount - 1) = c + 1 := by
    rw [hn]
    exact Nat.min_eq_left (by omega)
  refine ⟨?_, ?_, ?_⟩
  · simp only [dbcsAttrAt]
    rw [hmc]
    simp only [hgc]
    by_cases hc0 : 0 < c
    · rw [if_pos hc0]
      simp only [hgcm hc0]
      rw [if_neg (by omega : ¬ c - 1 = c)]
      rw [if_pos (by omega : c < r'.indicesCount)]
      simp only [hgc1]
      simp
    · rw [if_neg hc0]
      rw [if_pos (by omega : c < r'.indicesCount)]
      simp only [hgc1]
      simp
  · simp only [dbcsAttrAt]
    rw [hmc1]
    simp only [hgc1]
    rw [if_pos (by omega : 0 < c + 1)]
    simp only [Nat.add_sub_cancel, hgc]
    simp
  · simp only [glyphAt]
    rw [hmc, hmc1]
    simp only [hgc, hgc1]
    rw [findNe_skip hgc1]

/-- Witness for C4 at a concrete input: wide glyph "ab" at column 0 of a
freshly reset width-3 row. -/
theorem claim4_witness :
    dbcsAttrAt rowWideAt0 0 = .ok .leading ∧ dbcsAttrAt rowWideAt0 1 = .ok .trailing ∧
      glyphAt rowWideAt0 0 = glyphAt rowWideAt0 1 :=
  claim4_amended 3 0 0 [97, 98] rowWideAt0 (by decide) (by decide) (by decide)

/-- Witness for C8 at concrete inputs. -/
theorem claim8_witness :
    clearColumn (rowInit 2 0) 5 = .error .invalidArg ∧
    writeCells (rowInit 2 0) [] 7 none none = .error .invalidArg ∧
    writeCells (rowInit 2 0) [] 0 none (some 9) = .error .invalidArg ∧
    replaceTextRaw (rowInit 2 0) 2 1 [120] = .error .oob :=
  ⟨claim8_amended.1 (rowInit 2 0) 5 (by decide),
   claim8_amended.2.1 (rowInit 2 0) [] 7 none none (by decide),
   claim8_amended.2.2.1 (rowInit 2 0) [] 0 none (some 9) (by decide),
   claim8_amended.2.2.2 (rowInit 2 0) 2 1 [120] (by decide) (by decide) (by decide)⟩

end TermRow
